import Mathlib

/-!
Verification development for the Miabé IA RAG chatbot repository.

We give a shallow embedding of the text-normalization functions, the
chunking/embedding index builder, the retrieval search, the conversation
orchestrator, and the scraping/deduplication pipeline, translated from the
Python sources, and prove the specification claims about them.

Python strings are modeled as Lean `String` (sequences of code points,
matching Python `len` and indexing semantics for the inputs considered).
-/

namespace PyText

/-- Set of characters of Python `string.punctuation`, that is the ASCII
punctuation characters, given by their code-point ranges 33-47, 58-64,
91-96 and 123-126. -/
def isPyPunct (c : Char) : Bool :=
  let n := c.toNat
  (33 ≤ n && n ≤ 47) || (58 ≤ n && n ≤ 64) || (91 ≤ n && n ≤ 96) || (123 ≤ n && n ≤ 126)

/-- The ASCII whitespace characters matched by the Python regex class
`\s` and stripped by `str.strip` (space, tab, newline, carriage return,
vertical tab, form feed). After the ASCII-ignore step of the
normalizers, no other whitespace can occur. -/
def isPyWs (c : Char) : Bool :=
  c = ' ' || c = '\t' || c = '\n' || c = '\r' || c = '\x0b' || c = '\x0c'

/-- Characters matched by the regex class of the raw pattern with a space
and a tab, used in the build-time normalizer. -/
def isSpaceTab (c : Char) : Bool :=
  c = ' ' || c = '\t'

/-- Models one character of
`unicodedata.normalize(NFKD, s).encode(ascii, ignore).decode(utf-8)`:
NFKD decomposition followed by dropping every non-ASCII code point.
ASCII characters are fixed points; accented Latin letters used in the
corpus decompose to their base letter followed by a combining mark,
which is then dropped by the ASCII filter; any other non-ASCII
character is dropped entirely. -/
def nfkdAsciiChar (c : Char) : List Char :=
  if c.toNat < 128 then [c]
  else if c ∈ ['à', 'â', 'ä', 'á', 'ã'] then ['a']
  else if c ∈ ['é', 'è', 'ê', 'ë'] then ['e']
  else if c ∈ ['î', 'ï', 'í'] then ['i']
  else if c ∈ ['ô', 'ö', 'ó', 'õ'] then ['o']
  else if c ∈ ['ù', 'û', 'ü', 'ú'] then ['u']
  else if c = 'ç' then ['c']
  else if c ∈ ['À', 'Â', 'Ä', 'Á', 'Ã'] then ['A']
  else if c ∈ ['É', 'È', 'Ê', 'Ë'] then ['E']
  else if c ∈ ['Î', 'Ï', 'Í'] then ['I']
  else if c ∈ ['Ô', 'Ö', 'Ó', 'Õ'] then ['O']
  else if c ∈ ['Ù', 'Û', 'Ü', 'Ú'] then ['U']
  else if c = 'Ç' then ['C']
  else []

/-- NFKD decomposition followed by ASCII-ignore encoding, on a character list. -/
def nfkdAscii (s : List Char) : List Char :=
  s.flatMap nfkdAsciiChar

/-- Models `re.sub` of a one-character-class-plus pattern with a single
space: every maximal run of characters satisfying `p` is replaced by one
space. The boolean argument records whether the previous character was
part of such a run. -/
def collapseRuns (p : Char → Bool) : Bool → List Char → List Char
  | _, [] => []
  | prev, c :: cs =>
    if p c then
      if prev then collapseRuns p true cs else ' ' :: collapseRuns p true cs
    else c :: collapseRuns p false cs

/-- Models Python `str.strip` on a character list: drop leading and
trailing whitespace. -/
def pyStripList (s : List Char) : List Char :=
  ((s.dropWhile isPyWs).reverse.dropWhile isPyWs).reverse

/-- Models Python `str.strip` on a string. -/
def pyStrip (s : String) : String :=
  String.mk (pyStripList s.data)

/-- Models Python `str.lower`; ASCII case mapping, which agrees with the
full Unicode case map composed with the subsequent NFKD plus
ASCII-ignore step for the characters handled by `nfkdAsciiChar`. -/
def pyLower (s : List Char) : List Char :=
  s.map Char.toLower

theorem length_dropWhileP_le (p : Char → Bool) (l : List Char) :
    (l.dropWhile p).length ≤ l.length := by
  induction l with
  | nil => simp
  | cons a l ih =>
    rw [List.dropWhile_cons]
    split
    · exact ih.trans (Nat.le_succ _)
    · simp

theorem length_pyStripList_le (s : List Char) : (pyStripList s).length ≤ s.length := by
  unfold pyStripList
  calc ((s.dropWhile isPyWs).reverse.dropWhile isPyWs).reverse.length
      = ((s.dropWhile isPyWs).reverse.dropWhile isPyWs).length := by
        rw [List.length_reverse]
    _ ≤ (s.dropWhile isPyWs).reverse.length := length_dropWhileP_le _ _
    _ = (s.dropWhile isPyWs).length := by rw [List.length_reverse]
    _ ≤ s.length := length_dropWhileP_le _ _

theorem length_pyStrip_le (s : String) : (pyStrip s).length ≤ s.length := by
  cases s with
  | mk data => exact length_pyStripList_le data

end PyText

namespace GenericChunkEmbed

open PyText

/-- Minimum character floor for chunks and files (`MIN_CHAR_COUNT`). -/
def MIN_CHAR_COUNT : Nat := 20

/-- Embedding batch size (`BATCH_SIZE`). -/
def BATCH_SIZE : Nat := 150

/-- Token threshold above which hybrid chunking applies
(`TOKEN_THRESHOLD_FOR_HYBRID_CHUNKING`). -/
def TOKEN_THRESHOLD : Nat := 8000

/-- Target chunk size in characters (`CHUNK_SIZE`). -/
def CHUNK_SIZE : Nat := 1500

/-- `normalize_text` from `generic_chunk_embed.py` (build time): lowercase,
NFKD plus ASCII-ignore, delete every punctuation character
(`str.translate` with a deletion table of `string.punctuation`), collapse
runs of spaces and tabs to one space, strip each newline-separated line,
rejoin with newlines, and strip the result. -/
def normalize_text (s : String) : String :=
  let t1 := pyLower s.data
  let t2 := nfkdAscii t1
  let t3 := t2.filter (fun c => !(isPyPunct c))
  let t4 := collapseRuns isSpaceTab false t3
  let t5 := List.intercalate ['\n'] ((t4.splitOn '\n').map pyStripList)
  String.mk (pyStripList t5)

end GenericChunkEmbed

namespace TextHelpers

open PyText

/-- `normalize_text` from `utils/text_helpers.py` (query time): lowercase,
NFKD plus ASCII-ignore, then replace every maximal run of punctuation
or whitespace characters by a single space, and strip. -/
def normalize_text (s : String) : String :=
  let t1 := pyLower s.data
  let t2 := nfkdAscii t1
  let t3 := collapseRuns (fun c => isPyPunct c || isPyWs c) false t2
  String.mk (pyStripList t3)

end TextHelpers

/-- C1: the build-time normalizer of `generic_chunk_embed.py` and the
query-time normalizer of `utils/text_helpers.py` are not the identical
transformation: on the input string made of the three characters a, dot, b
the build-time function deletes the punctuation character (yielding the
two-character string ab) while the query-time function replaces it with a
space (yielding a space-separated string), so the normalization symmetry
the specification requires does not hold in the code. -/
theorem c1_normalize_text_divergence :
    GenericChunkEmbed.normalize_text "a.b" = "ab" ∧
    TextHelpers.normalize_text "a.b" = "a b" ∧
    GenericChunkEmbed.normalize_text "a.b" ≠ TextHelpers.normalize_text "a.b" := by
  refine ⟨by decide, by decide, by decide⟩

namespace Config

/-- An apostrophe character, written by code point. -/
def apos : String := String.mk [Char.ofNat 39]

/-- `INTENT_CATEGORIES` from `config.py`. -/
def INTENT_CATEGORIES : List String :=
  ["Salutations", "Question_Information_Generale", "Inapproprie"]

/-- `SEARCH_K` from `config.py`. -/
def SEARCH_K : Nat := 10

/-- `PREDEFINED_ANSWERS` from `config.py`, as an insertion-ordered
association list (Python dict). Note the misspelled second key. -/
def PREDEFINED_ANSWERS : List (String × String) :=
  [("Salutations",
    "Bonjour ! Je suis Miabé IA. Comment puis-je vous aider aujourd" ++ apos ++
      "hui concernant {CONTEXT_NAME} ?"),
   ("Saluations",
    "Bonjour ! Je suis Miabé IA. Comment puis-je vous aider aujourd" ++ apos ++
      "hui concernant {CONTEXT_NAME} ?"),
   ("Inapproprie",
    "Je suis Miabé IA., un assistant au service de {CONTEXT_NAME}. Je suis là pour vous aider.")]

end Config

namespace CoreChatbot

/-- One conversation turn, a role-tagged message. -/
structure Msg where
  role : String
  content : String
deriving DecidableEq

/-- The external LLM and embedding services used by the chatbot, as
oracles. `none` (for single calls) and a `true` second component (for
streamed calls) model the call raising an exception; streamed calls also
report the chunks they yielded before finishing or raising. -/
structure Oracles where
  rewrite : String → String → Option String
  classify : String → Option String
  embed : String → Option (List Int)
  ragStream : String → String → String → List String × Bool
  predefStream : String → String → String → List String × Bool

/-- The loaded vector store: the FAISS index vectors (position equals the
dense integer id) and the parallel storage-text and metadata arrays of
`index_mapping.pkl`. Embedding coordinates are modeled over `Int`. -/
structure VectorStore where
  db : List (List Int)
  texts : List String
  metadata : List (List (String × String))
deriving DecidableEq

/-- The history string built by joining role-prefixed turns with newlines. -/
def historyStr (history : List Msg) : String :=
  String.intercalate "\n" (history.map fun m => m.role ++ ": " ++ m.content)

/-- `Chatbot._rewrite_query`: invoke the rewriter chain; on failure return
the original question. -/
def rewrite_query (o : Oracles) (history : List Msg) (question : String) : String :=
  match o.rewrite (historyStr history) question with
  | some r => r
  | none => question

/-- `Chatbot._classify_intent`: invoke the classifier chain; keep its
stripped answer when it is a known category, otherwise (out of
vocabulary, or the call raised) return the default category. -/
def classify_intent (o : Oracles) (question : String) : String :=
  match o.classify question with
  | some intent =>
    if PyText.pyStrip intent ∈ Config.INTENT_CATEGORIES then PyText.pyStrip intent
    else "Question_Information_Generale"
  | none => "Question_Information_Generale"

/-- Squared L2 distance used by `faiss.IndexFlatL2`. -/
def l2 (a b : List Int) : Int :=
  ((a.zip b).map (fun p => (p.1 - p.2) * (p.1 - p.2))).sum

/-- Pair every stored vector with its dense integer id (starting at `i`)
and its distance to the query. -/
def scoreAll (q : List Int) : List (List Int) → Nat → List (Nat × Int)
  | [], _ => []
  | v :: rest, i => (i, l2 q v) :: scoreAll q rest (i + 1)

/-- Insertion step of the ascending-distance sort. -/
def insertByDist (x : Nat × Int) : List (Nat × Int) → List (Nat × Int)
  | [] => [x]
  | y :: ys => if x.2 < y.2 then x :: y :: ys else y :: insertByDist x ys

/-- Ascending-distance insertion sort over scored ids. -/
def sortByDist : List (Nat × Int) → List (Nat × Int)
  | [] => []
  | x :: xs => insertByDist x (sortByDist xs)

/-- `index.search` of a FAISS `IndexFlatL2` wrapped in an `IndexIDMap`
with dense ids: the ids of the `k` nearest stored vectors in ascending
distance order, padded with `-1` entries when fewer than `k` vectors are
stored. -/
def faiss_search (db : List (List Int)) (q : List Int) (k : Nat) : List Int :=
  let top := ((sortByDist (scoreAll q db 0)).map (fun p => (p.1 : Int))).take k
  top ++ List.replicate (k - top.length) (-1)

/-- `Chatbot._find_relevant_chunks`: normalize the query with the
query-time normalizer, embed it (`none` models the embedding call
raising), search the index for `SEARCH_K` neighbors, drop `-1` ids and
return the stored text and metadata at each returned id. -/
def find_relevant_chunks (vs : VectorStore) (o : Oracles) (question : String) :
    Option (List (String × List (String × String))) :=
  match o.embed (TextHelpers.normalize_text question) with
  | none => none
  | some qv =>
    let ids := faiss_search vs.db qv Config.SEARCH_K
    some (ids.filterMap fun idx =>
      if idx = -1 then none
      else some (vs.texts.getD idx.toNat "", vs.metadata.getD idx.toNat []))

/-- The apology yielded when the RAG pipeline raises. -/
def APOLOGY : String := "Désolé, une erreur technique est survenue."

/-- The message yielded when retrieval returns no chunk. -/
def NO_INFO_MSG : String :=
  "Je n" ++ Config.apos ++ "ai pas trouvé d" ++ Config.apos ++
    "information pertinente pour répondre à votre question."

/-- The fallback for an unknown intent. -/
def FALLBACK_MSG : String := "Je ne suis pas sûr de comprendre. Pouvez-vous reformuler ?"

/-- `Chatbot.handle_rag_request`: rewrite, classify, route. The result is
the list of chunks yielded to the caller together with a flag telling
whether an exception escapes to the caller. The predefined-answer branch
streams without a surrounding try block, so a raise there escapes; the
retrieval branch catches exceptions and substitutes the apology. -/
def handle_rag_request (vs : VectorStore) (o : Oracles) (question : String)
    (history : List Msg) : List String × Bool :=
  let rewritten := rewrite_query o history question
  let intent := classify_intent o rewritten
  if (Config.PREDEFINED_ANSWERS.lookup intent).isSome || intent = "Saluations" then
    o.predefStream question intent ((Config.PREDEFINED_ANSWERS.lookup intent).getD "")
  else if intent = "Question_Information_Generale" then
    match find_relevant_chunks vs o rewritten with
    | none => ([APOLOGY], false)
    | some [] => ([NO_INFO_MSG], false)
    | some chunks =>
      let context_str := String.intercalate "\n\n---\n\n" (chunks.map fun c =>
        "Source: " ++ ((c.2.lookup "source").getD "N/A") ++ "\nContenu: " ++ c.1)
      let res := o.ragStream (historyStr history) context_str question
      if res.2 then (res.1 ++ [APOLOGY], false) else (res.1, false)
  else
    ([(Config.PREDEFINED_ANSWERS.lookup intent).getD FALLBACK_MSG], false)

end CoreChatbot

namespace CoreChatbot

theorem length_scoreAll (q : List Int) (db : List (List Int)) (i : Nat) :
    (scoreAll q db i).length = db.length := by
  induction db generalizing i with
  | nil => rfl
  | cons v rest ih => simp [scoreAll, ih]

theorem fst_lt_of_mem_scoreAll {q : List Int} {db : List (List Int)} {i : Nat}
    {p : Nat × Int} (h : p ∈ scoreAll q db i) : p.1 < i + db.length := by
  induction db generalizing i with
  | nil => simp [scoreAll] at h
  | cons v rest ih =>
    simp only [scoreAll, List.mem_cons] at h
    rcases h with h | h
    · subst h; simp
    · have := ih h
      simp only [List.length_cons]
      simp only [List.length_cons] at this
      omega

theorem insertByDist_perm (x : Nat × Int) (l : List (Nat × Int)) :
    (insertByDist x l).Perm (x :: l) := by
  induction l with
  | nil => simp [insertByDist]
  | cons y ys ih =>
    simp only [insertByDist]
    split
    · exact List.Perm.refl _
    · exact (List.Perm.cons y ih).trans (List.Perm.swap x y ys)

theorem sortByDist_perm (l : List (Nat × Int)) : (sortByDist l).Perm l := by
  induction l with
  | nil => simp [sortByDist]
  | cons x xs ih =>
    exact (insertByDist_perm x (sortByDist xs)).trans (List.Perm.cons x ih)

theorem length_sortByDist (l : List (Nat × Int)) : (sortByDist l).length = l.length :=
  (sortByDist_perm l).length_eq

theorem mem_of_mem_sortByDist {l : List (Nat × Int)} {p : Nat × Int}
    (h : p ∈ sortByDist l) : p ∈ l :=
  (sortByDist_perm l).mem_iff.mp h

/-- Every id slot returned by the search is either a valid dense id,
below the number of stored vectors, or the padding value `-1`. -/
theorem faiss_search_mem {db : List (List Int)} {q : List Int} {k : Nat} {idx : Int}
    (h : idx ∈ faiss_search db q k) :
    idx = -1 ∨ ∃ n : Nat, n < db.length ∧ idx = (n : Int) := by
  simp only [faiss_search, List.mem_append] at h
  rcases h with h | h
  · right
    have h' := List.mem_of_mem_take h
    rcases List.mem_map.mp h' with ⟨p, hp, rfl⟩
    have hmem := mem_of_mem_sortByDist hp
    have hlt := fst_lt_of_mem_scoreAll hmem
    exact ⟨p.1, by omega, rfl⟩
  · left
    exact (List.eq_of_mem_replicate h)

theorem faiss_search_top_length (db : List (List Int)) (q : List Int) (k : Nat) :
    (((sortByDist (scoreAll q db 0)).map (fun p => ((p.1 : Int)))).take k).length
      = min k db.length := by
  rw [List.length_take, List.length_map, length_sortByDist, length_scoreAll]

theorem filterMap_keepValid {β : Type} (g : Int → β) :
    ∀ (l : List Int), (∀ x ∈ l, x ≠ -1) →
      (l.filterMap fun idx => if idx = -1 then none else some (g idx)) = l.map g := by
  intro l
  induction l with
  | nil => intro _; rfl
  | cons a l ih =>
    intro h
    have ha : a ≠ -1 := h a (List.mem_cons_self a l)
    simp only [List.filterMap_cons, if_neg ha, List.map_cons]
    rw [ih (fun x hx => h x (List.mem_cons_of_mem a hx))]

theorem filterMap_padding {β : Type} (g : Int → β) (n : Nat) :
    ((List.replicate n (-1 : Int)).filterMap
      fun idx => if idx = -1 then none else some (g idx)) = [] := by
  induction n with
  | zero => rfl
  | succ m ih => simp [List.replicate_succ, List.filterMap_cons, ih]

end CoreChatbot

/-- C5: when the embedding call answers, `_find_relevant_chunks` returns
exactly `min SEARCH_K ntotal` results (so at most `SEARCH_K = 10`, fewer
only when the index stores fewer vectors), the `-1` padding ids are
filtered out, each result carries the stored (non-normalized) text and
the metadata at its id, and an empty index yields an empty list. -/
theorem c5_find_relevant_chunks_bound (vs : CoreChatbot.VectorStore)
    (o : CoreChatbot.Oracles) (q : String) (qv : List Int)
    (he : o.embed (TextHelpers.normalize_text q) = some qv) :
    ∃ rs, CoreChatbot.find_relevant_chunks vs o q = some rs ∧
      rs.length = min Config.SEARCH_K vs.db.length ∧
      rs.length ≤ Config.SEARCH_K ∧
      (∀ r ∈ rs, ∃ i : Nat, i < vs.db.length ∧
        r.1 = vs.texts.getD i "" ∧ r.2 = vs.metadata.getD i []) ∧
      (vs.db = [] → rs = []) := by
  classical
  simp only [CoreChatbot.find_relevant_chunks, he]
  set g : Int → String × List (String × String) :=
    fun idx => (vs.texts.getD idx.toNat "", vs.metadata.getD idx.toNat []) with hg
  set top := ((CoreChatbot.sortByDist (CoreChatbot.scoreAll qv vs.db 0)).map
    (fun p => ((p.1 : Int)))).take Config.SEARCH_K with htop
  have htopmem : ∀ x ∈ top, x ≠ -1 := by
    intro x hx
    have h' := List.mem_of_mem_take hx
    rcases List.mem_map.mp h' with ⟨p, _, rfl⟩
    intro hcon
    omega
  have hsearch : CoreChatbot.faiss_search vs.db qv Config.SEARCH_K
      = top ++ List.replicate (Config.SEARCH_K - top.length) (-1) := rfl
  refine ⟨_, rfl, ?_, ?_, ?_, ?_⟩
  · rw [hsearch, List.filterMap_append,
      CoreChatbot.filterMap_keepValid g top htopmem,
      CoreChatbot.filterMap_padding g, List.append_nil, List.length_map, htop,
      CoreChatbot.faiss_search_top_length]
  · rw [hsearch, List.filterMap_append,
      CoreChatbot.filterMap_keepValid g top htopmem,
      CoreChatbot.filterMap_padding g, List.append_nil, List.length_map, htop,
      CoreChatbot.faiss_search_top_length]
    exact Nat.min_le_left _ _
  · intro r hr
    rcases List.mem_filterMap.mp hr with ⟨idx, hidx, hval⟩
    rcases CoreChatbot.faiss_search_mem hidx with h1 | ⟨n, hn, rfl⟩
    · rw [if_pos h1] at hval; cases hval
    · have hne : ((n : Int)) ≠ -1 := by omega
      rw [if_neg hne] at hval
      have h2 := Option.some.inj hval
      refine ⟨n, hn, ?_, ?_⟩
      · rw [← h2]; simp
      · rw [← h2]; simp
  · intro hdb
    rw [hsearch, List.filterMap_append,
      CoreChatbot.filterMap_keepValid g top htopmem,
      CoreChatbot.filterMap_padding g, List.append_nil]
    have : top = [] := by
      rw [htop, hdb]
      rfl
    rw [this]
    rfl

/-- Witness for C5 on a concrete two-vector index. -/
theorem c5_find_relevant_chunks_bound_witness :
    ∃ rs, CoreChatbot.find_relevant_chunks
        ⟨[[0], [3]], ["chunk a", "chunk b"], [[("source", "u/a")], [("source", "u/b")]]⟩
        ⟨fun _ _ => none, fun _ => none, fun _ => some [1],
         fun _ _ _ => ([], false), fun _ _ _ => ([], false)⟩ "query" = some rs ∧
      rs.length = min Config.SEARCH_K 2 ∧
      rs.length ≤ Config.SEARCH_K ∧
      (∀ r ∈ rs, ∃ i : Nat, i < 2 ∧
        r.1 = ["chunk a", "chunk b"].getD i "" ∧
        r.2 = [[("source", "u/a")], [("source", "u/b")]].getD i []) ∧
      (([[0], [3]] : List (List Int)) = [] → rs = []) :=
  c5_find_relevant_chunks_bound
    ⟨[[0], [3]], ["chunk a", "chunk b"], [[("source", "u/a")], [("source", "u/b")]]⟩
    ⟨fun _ _ => none, fun _ => none, fun _ => some [1],
     fun _ _ _ => ([], false), fun _ _ _ => ([], false)⟩ "query" [1] rfl

/-- C7: `_classify_intent` returns the default information-seeking
category `Question_Information_Generale` both when the classifier call
raises and when it returns an out-of-vocabulary string, never an error. -/
theorem c7_classify_intent_default (o : CoreChatbot.Oracles) (q : String) :
    (o.classify q = none →
      CoreChatbot.classify_intent o q = "Question_Information_Generale") ∧
    (∀ s, o.classify q = some s → PyText.pyStrip s ∉ Config.INTENT_CATEGORIES →
      CoreChatbot.classify_intent o q = "Question_Information_Generale") := by
  constructor
  · intro h
    simp [CoreChatbot.classify_intent, h]
  · intro s hs hmem
    simp [CoreChatbot.classify_intent, hs, hmem]

/-- Witness for C7: a raising classifier and an out-of-vocabulary
classifier both produce the default category on a concrete question. -/
theorem c7_classify_intent_default_witness :
    CoreChatbot.classify_intent
        ⟨fun _ _ => none, fun _ => none, fun _ => none,
         fun _ _ _ => ([], false), fun _ _ _ => ([], false)⟩ "bonjour"
      = "Question_Information_Generale" ∧
    CoreChatbot.classify_intent
        ⟨fun _ _ => none, fun _ => some "Autre_Categorie", fun _ => none,
         fun _ _ _ => ([], false), fun _ _ _ => ([], false)⟩ "bonjour"
      = "Question_Information_Generale" := by
  constructor
  · exact (c7_classify_intent_default _ _).1 rfl
  · exact (c7_classify_intent_default _ _).2 "Autre_Categorie" rfl (by decide)

/-- C10: every intent produced by `_classify_intent` lies in
`config.INTENT_CATEGORIES`, which does not contain the misspelled string
Saluations; hence the routing disjunct comparing the produced intent with
that misspelled string is never true, and the misspelled entry of
`PREDEFINED_ANSWERS` is unreachable through the classifier. -/
theorem c10_saluations_unreachable (o : CoreChatbot.Oracles) (q : String) :
    CoreChatbot.classify_intent o q ∈ Config.INTENT_CATEGORIES ∧
    CoreChatbot.classify_intent o q ≠ "Saluations" ∧
    "Saluations" ∉ Config.INTENT_CATEGORIES := by
  have hmem : CoreChatbot.classify_intent o q ∈ Config.INTENT_CATEGORIES := by
    unfold CoreChatbot.classify_intent
    cases o.classify q with
    | none => decide
    | some s =>
      by_cases h : PyText.pyStrip s ∈ Config.INTENT_CATEGORIES
      · simp only [if_pos h]
        exact h
      · simp only [if_neg h]
        decide
  have hnotin : "Saluations" ∉ Config.INTENT_CATEGORIES := by decide
  refine ⟨hmem, ?_, hnotin⟩
  intro hcon
  rw [hcon] at hmem
  exact hnotin hmem

/-- C3 counterexample: when the classifier succeeds with the intent
Salutations and the predefined-answer generation stream raises before
yielding anything, `handle_rag_request` propagates the exception to its
caller (second component `true`) and yields no chunk, because the
predefined-answer branch has no surrounding try block. This refutes the
claim that the orchestrator never raises and always yields a chunk for
every combination of failing LLM calls. -/
theorem c3_counterexample :
    CoreChatbot.handle_rag_request ⟨[], [], []⟩
      ⟨fun _ q => some q, fun _ => some "Salutations", fun _ => none,
       fun _ _ _ => ([], false), fun _ _ _ => ([], true)⟩
      "bonjour" [] = ([], true) := by
  decide

/-- C3 amended: whenever the intent resolves to the default category —
in particular whenever the classify call fails — `handle_rag_request`
never raises, and if additionally the answer-generation stream always
raises (so in particular in the total-failure scenario where rewrite,
classify and generation all fail), it still yields at least one
non-empty chunk (the apology or the no-information message). -/
theorem c3_amended_no_raise (vs : CoreChatbot.VectorStore) (o : CoreChatbot.Oracles)
    (question : String) (history : List CoreChatbot.Msg)
    (hc : o.classify (CoreChatbot.rewrite_query o history question) = none)
    (hg : ∀ h c q, (o.ragStream h c q).2 = true) :
    (CoreChatbot.handle_rag_request vs o question history).2 = false ∧
    ∃ c ∈ (CoreChatbot.handle_rag_request vs o question history).1, c ≠ "" := by
  have hint : CoreChatbot.classify_intent o (CoreChatbot.rewrite_query o history question)
      = "Question_Information_Generale" := by
    simp [CoreChatbot.classify_intent, hc]
  have h1 : (Config.PREDEFINED_ANSWERS.lookup "Question_Information_Generale") = none := by
    decide
  have hap : CoreChatbot.APOLOGY ≠ "" := by decide
  have hni : CoreChatbot.NO_INFO_MSG ≠ "" := by decide
  unfold CoreChatbot.handle_rag_request
  simp only [hint, h1, Option.isSome_none]
  cases hf : CoreChatbot.find_relevant_chunks vs o
      (CoreChatbot.rewrite_query o history question) with
  | none =>
    simp only [hf]
    exact ⟨rfl, CoreChatbot.APOLOGY, List.mem_singleton.mpr rfl, hap⟩
  | some chunks =>
    cases chunks with
    | nil =>
      simp only [hf]
      exact ⟨rfl, CoreChatbot.NO_INFO_MSG, List.mem_singleton.mpr rfl, hni⟩
    | cons c cs =>
      simp only [hf, hg]
      refine ⟨rfl, CoreChatbot.APOLOGY, ?_, hap⟩
      exact List.mem_append_right _ (List.mem_singleton.mpr rfl)

/-- Witness for C3 amended: with every LLM call failing, the orchestrator
yields a non-empty chunk and does not raise. -/
theorem c3_amended_no_raise_witness :
    (CoreChatbot.handle_rag_request ⟨[], [], []⟩
      ⟨fun _ _ => none, fun _ => none, fun _ => none,
       fun _ _ _ => ([], true), fun _ _ _ => ([], true)⟩ "bonjour" []).2 = false ∧
    ∃ c ∈ (CoreChatbot.handle_rag_request ⟨[], [], []⟩
      ⟨fun _ _ => none, fun _ => none, fun _ => none,
       fun _ _ _ => ([], true), fun _ _ _ => ([], true)⟩ "bonjour" []).1, c ≠ "" :=
  c3_amended_no_raise ⟨[], [], []⟩
    ⟨fun _ _ => none, fun _ => none, fun _ => none,
     fun _ _ _ => ([], true), fun _ _ _ => ([], true)⟩ "bonjour" [] rfl
    (fun _ _ _ => rfl)

namespace PyText

/-- Fuel-driven worker for Python `str.replace`: replace non-overlapping
occurrences of `pat` left to right. Fuel equal to the input length
suffices because every step consumes at least one character when `pat`
is non-empty (the patterns used in the sources are non-empty). -/
def replaceFuel (pat rep : List Char) : Nat → List Char → List Char
  | _, [] => []
  | 0, l => l
  | fuel + 1, c :: cs =>
    if pat ≠ [] ∧ (c :: cs).take pat.length = pat then
      rep ++ replaceFuel pat rep fuel ((c :: cs).drop pat.length)
    else c :: replaceFuel pat rep fuel cs

/-- Models Python `str.replace` on strings. -/
def pyReplace (s pat rep : String) : String :=
  String.mk (replaceFuel pat.data rep.data s.data.length s.data)

/-- Lexicographic code-point order on character lists, as used by Python
string comparison in `sorted`. -/
def lexLe : List Char → List Char → Bool
  | [], _ => true
  | _ :: _, [] => false
  | a :: as, b :: bs =>
    if a.toNat < b.toNat then true
    else if b.toNat < a.toNat then false
    else lexLe as bs

end PyText

namespace GenericChunkEmbed

/-- One document piece produced by the Markdown header splitter: its text
and its header metadata dict. -/
structure MdChunk where
  page_content : String
  metadata : List (String × String)
deriving DecidableEq

/-- `transform_source_path`: drop the `.md` suffix and turn underscores
into slashes to recover a URL-like source. -/
def transform_source_path (filename : String) : String :=
  PyText.pyReplace (PyText.pyReplace filename ".md" "") "_" "/"

/-- Insertion step of the by-key sort of `sorted(chunk.metadata.items())`
(dict keys are unique, so comparing keys suffices). -/
def insertByKey (x : String × String) :
    List (String × String) → List (String × String)
  | [] => [x]
  | y :: ys => if PyText.lexLe x.1.data y.1.data then x :: y :: ys else y :: insertByKey x ys

/-- Sort the metadata items by key, ascending. -/
def sortByKey : List (String × String) → List (String × String)
  | [] => []
  | x :: xs => insertByKey x (sortByKey xs)

/-- The concatenated header breadcrumb: values of the header keys
(those starting with the letter H), sorted by key, joined by a dash. -/
def chunkTitle (md : List (String × String)) : String :=
  String.intercalate " - " ((sortByKey md).filterMap fun p =>
    if ['H'].isPrefixOf p.1.data then some p.2 else none)

/-- Lines 62-70 of `generic_chunk_embed.py`: header-split pieces longer
than `CHUNK_SIZE` are re-split by the recursive character splitter, the
sub-pieces inheriting the metadata; the splitters themselves are external
library calls, taken as oracles `headerSplit` and `recSplit`. -/
def final_chunks (headerSplit : String → List MdChunk) (recSplit : String → List String)
    (content : String) : List MdChunk :=
  (headerSplit content).flatMap fun c =>
    if c.page_content.length > CHUNK_SIZE then
      (recSplit c.page_content).map (fun s => ⟨s, c.metadata⟩)
    else [c]

/-- The accumulation loop of `get_hybrid_chunks` (lines 78-98): skip
chunks whose stripped content is below the floor, otherwise append the
normalized enriched text, the raw enriched text and the metadata to the
three parallel lists. -/
def hybridLoop (source_url : String) :
    List MdChunk → List String × List String × List (List (String × String))
  | [] => ([], [], [])
  | c :: rest =>
    if (PyText.pyStrip c.page_content).length < MIN_CHAR_COUNT then
      hybridLoop source_url rest
    else
      let title := chunkTitle c.metadata
      let enriched := title ++ "\n" ++ c.page_content
      let r := hybridLoop source_url rest
      (normalize_text enriched :: r.1, enriched :: r.2.1,
        [("source", source_url), ("titre_concatene", title)] :: r.2.2)

/-- `get_hybrid_chunks`: split, filter, enrich and accumulate. -/
def get_hybrid_chunks (headerSplit : String → List MdChunk)
    (recSplit : String → List String) (content filename : String) :
    List String × List String × List (List (String × String)) :=
  hybridLoop (transform_source_path filename) (final_chunks headerSplit recSplit content)

/-- Per-file chunk collection of `create_vector_store` (lines 125-156):
skip files below the character floor, hybrid-chunk files above the token
threshold (`tokCount` is the tiktoken oracle, falling back to the text
length internally), and store short files as one whole chunk. -/
def collectFile (tokCount : String → Nat) (headerSplit : String → List MdChunk)
    (recSplit : String → List String) (filename content : String) :
    List String × List String × List (List (String × String)) :=
  if content.length < MIN_CHAR_COUNT then ([], [], [])
  else if tokCount content > TOKEN_THRESHOLD then
    get_hybrid_chunks headerSplit recSplit content filename
  else ([normalize_text content], [content],
    [[("source", transform_source_path filename)]])

/-- Chunk collection over all scanned files, in scan order. -/
def collectAll (tokCount : String → Nat) (headerSplit : String → List MdChunk)
    (recSplit : String → List String) :
    List (String × String) → List String × List String × List (List (String × String))
  | [] => ([], [], [])
  | (fn, c) :: rest =>
    let r1 := collectFile tokCount headerSplit recSplit fn c
    let r2 := collectAll tokCount headerSplit recSplit rest
    (r1.1 ++ r2.1, r1.2.1 ++ r2.2.1, r1.2.2 ++ r2.2.2)

/-- Option-valued map, modeling a sequence of per-text external calls
that fails as a whole when any element fails. -/
def mapMO {α β : Type} (f : α → Option β) : List α → Option (List β)
  | [] => some []
  | a :: l =>
    match f a, mapMO f l with
    | some b, some bs => some (b :: bs)
    | _, _ => none

/-- The batched embedding loop (lines 167-176): embed `BATCH_SIZE`-sized
slices in order, abort on the first failing batch. Fuel equal to the
number of texts suffices since each round consumes at least one text. -/
def embedBatches (embedF : String → Option (List Int)) :
    Nat → List String → Option (List (List Int))
  | _, [] => some []
  | 0, _ :: _ => none
  | fuel + 1, l =>
    match mapMO embedF (l.take BATCH_SIZE), embedBatches embedF fuel (l.drop BATCH_SIZE) with
    | some b, some rest => some (b ++ rest)
    | _, _ => none

/-- The persisted result of a successful build: FAISS vectors with their
dense ids, and the parallel storage-text and metadata arrays of the
mapping file. -/
structure BuiltStore where
  vectors : List (List Int)
  ids : List Nat
  texts : List String
  metadata : List (List (String × String))
deriving DecidableEq

/-- `create_vector_store`: collect chunks from all files, return no index
when there is no chunk, embed in batches aborting the whole build on a
batch failure, and otherwise persist the vectors under ids `0..N-1` in
insertion order together with the parallel arrays. -/
def create_vector_store (tokCount : String → Nat) (headerSplit : String → List MdChunk)
    (recSplit : String → List String) (embedF : String → Option (List Int))
    (files : List (String × String)) : Option BuiltStore :=
  let all := collectAll tokCount headerSplit recSplit files
  if all.1 = [] then none
  else
    match embedBatches embedF all.1.length all.1 with
    | none => none
    | some vecs => some ⟨vecs, List.range all.1.length, all.2.1, all.2.2⟩

end GenericChunkEmbed

namespace GenericChunkEmbed

theorem hybridLoop_lengths (src : String) (l : List MdChunk) :
    (hybridLoop src l).1.length = (hybridLoop src l).2.1.length ∧
    (hybridLoop src l).2.1.length = (hybridLoop src l).2.2.length := by
  induction l with
  | nil => exact ⟨rfl, rfl⟩
  | cons c rest ih =>
    simp only [hybridLoop]
    split
    · exact ih
    · simp only [List.length_cons]
      exact ⟨by rw [ih.1], by rw [ih.2]⟩

theorem hybridLoop_embed_eq_map (src : String) (l : List MdChunk) :
    (hybridLoop src l).1 = (hybridLoop src l).2.1.map normalize_text := by
  induction l with
  | nil => rfl
  | cons c rest ih =>
    simp only [hybridLoop]
    split
    · exact ih
    · simp only [List.map_cons]
      rw [ih]

theorem collectFile_lengths (tok : String → Nat) (hs : String → List MdChunk)
    (rs : String → List String) (fn c : String) :
    (collectFile tok hs rs fn c).1.length = (collectFile tok hs rs fn c).2.1.length ∧
    (collectFile tok hs rs fn c).2.1.length = (collectFile tok hs rs fn c).2.2.length := by
  unfold collectFile
  split
  · exact ⟨rfl, rfl⟩
  · split
    · exact hybridLoop_lengths _ _
    · exact ⟨rfl, rfl⟩

theorem collectFile_embed_eq_map (tok : String → Nat) (hs : String → List MdChunk)
    (rs : String → List String) (fn c : String) :
    (collectFile tok hs rs fn c).1 = (collectFile tok hs rs fn c).2.1.map normalize_text := by
  unfold collectFile
  split
  · rfl
  · split
    · exact hybridLoop_embed_eq_map _ _
    · rfl

theorem collectAll_lengths (tok : String → Nat) (hs : String → List MdChunk)
    (rs : String → List String) (files : List (String × String)) :
    (collectAll tok hs rs files).1.length = (collectAll tok hs rs files).2.1.length ∧
    (collectAll tok hs rs files).2.1.length = (collectAll tok hs rs files).2.2.length := by
  induction files with
  | nil => exact ⟨rfl, rfl⟩
  | cons f rest ih =>
    obtain ⟨fn, c⟩ := f
    simp only [collectAll, List.length_append]
    have h1 := collectFile_lengths tok hs rs fn c
    exact ⟨by rw [h1.1, ih.1], by rw [h1.2, ih.2]⟩

theorem collectAll_embed_eq_map (tok : String → Nat) (hs : String → List MdChunk)
    (rs : String → List String) (files : List (String × String)) :
    (collectAll tok hs rs files).1 = (collectAll tok hs rs files).2.1.map normalize_text := by
  induction files with
  | nil => rfl
  | cons f rest ih =>
    obtain ⟨fn, c⟩ := f
    simp only [collectAll, List.map_append]
    rw [collectFile_embed_eq_map tok hs rs fn c, ih]

theorem mapMO_length {α β : Type} (f : α → Option β) :
    ∀ (l : List α) (v : List β), mapMO f l = some v → v.length = l.length := by
  intro l
  induction l with
  | nil =>
    intro v hv
    simp only [mapMO] at hv
    cases hv
    rfl
  | cons a l ih =>
    intro v hv
    simp only [mapMO] at hv
    cases hfa : f a with
    | none => rw [hfa] at hv; cases hv
    | some b =>
      rw [hfa] at hv
      cases hrest : mapMO f l with
      | none => rw [hrest] at hv; cases hv
      | some bs =>
        rw [hrest] at hv
        cases hv
        simp only [List.length_cons]
        rw [ih bs hrest]

theorem mapMO_getD (f : String → Option (List Int)) :
    ∀ (l : List String) (v : List (List Int)), mapMO f l = some v →
      ∀ i, i < l.length → f (l.getD i "") = some (v.getD i []) := by
  intro l
  induction l with
  | nil =>
    intro v _ i hi
    simp at hi
  | cons a l ih =>
    intro v hv i hi
    simp only [mapMO] at hv
    cases hfa : f a with
    | none => rw [hfa] at hv; cases hv
    | some b =>
      rw [hfa] at hv
      cases hrest : mapMO f l with
      | none => rw [hrest] at hv; cases hv
      | some bs =>
        rw [hrest] at hv
        cases hv
        cases i with
        | zero => simpa using hfa
        | succ j =>
          simp only [List.getD_cons_succ]
          exact ih bs hrest j (by simpa using hi)

theorem mapMO_none_of_mem (f : String → Option (List Int)) :
    ∀ (l : List String) (a : String), a ∈ l → f a = none → mapMO f l = none := by
  intro l
  induction l with
  | nil =>
    intro a ha
    simp at ha
  | cons b l ih =>
    intro a ha hfa
    rcases List.mem_cons.mp ha with rfl | ha'
    · simp only [mapMO, hfa]
    · simp only [mapMO]
      rw [ih a ha' hfa]
      cases f b <;> rfl

theorem mapMO_append (f : String → Option (List Int)) :
    ∀ (l₁ l₂ : List String), mapMO f (l₁ ++ l₂) =
      match mapMO f l₁, mapMO f l₂ with
      | some v₁, some v₂ => some (v₁ ++ v₂)
      | _, _ => none := by
  intro l₁ l₂
  induction l₁ with
  | nil =>
    simp only [List.nil_append, mapMO]
    cases mapMO f l₂ <;> rfl
  | cons a l ih =>
    simp only [List.cons_append, mapMO, List.append_eq]
    rw [ih]
    cases f a <;> cases mapMO f l <;> cases mapMO f l₂ <;> rfl

theorem embedBatches_eq_mapMO (f : String → Option (List Int)) :
    ∀ (fuel : Nat) (l : List String), l.length ≤ fuel →
      embedBatches f fuel l = mapMO f l := by
  intro fuel
  induction fuel with
  | zero =>
    intro l hl
    cases l with
    | nil => rfl
    | cons a l => simp at hl
  | succ m ih =>
    intro l hl
    cases l with
    | nil => rfl
    | cons a l =>
      have hsplit : (a :: l).take BATCH_SIZE ++ (a :: l).drop BATCH_SIZE = a :: l :=
        List.take_append_drop _ _
      have hdrop : ((a :: l).drop BATCH_SIZE).length ≤ m := by
        simp only [List.length_drop]
        rw [show BATCH_SIZE = 150 from rfl]
        simp only [List.length_cons] at hl ⊢
        omega
      calc embedBatches f (m + 1) (a :: l)
          = (match mapMO f ((a :: l).take BATCH_SIZE),
               embedBatches f m ((a :: l).drop BATCH_SIZE) with
             | some b, some rest => some (b ++ rest)
             | _, _ => none) := rfl
        _ = (match mapMO f ((a :: l).take BATCH_SIZE),
               mapMO f ((a :: l).drop BATCH_SIZE) with
             | some b, some rest => some (b ++ rest)
             | _, _ => none) := by rw [ih _ hdrop]
        _ = mapMO f ((a :: l).take BATCH_SIZE ++ (a :: l).drop BATCH_SIZE) :=
              (mapMO_append f _ _).symm
        _ = mapMO f (a :: l) := by rw [hsplit]

theorem getD_map_normalize (l : List String) :
    ∀ i, i < l.length →
      (l.map normalize_text).getD i "" = normalize_text (l.getD i "") := by
  induction l with
  | nil =>
    intro i hi
    simp at hi
  | cons a l ih =>
    intro i hi
    cases i with
    | zero => rfl
    | succ j =>
      simp only [List.map_cons, List.getD_cons_succ]
      exact ih j (by simpa using hi)

end GenericChunkEmbed

namespace GenericChunkEmbed

theorem hybridLoop_floor (src : String) (l : List MdChunk) :
    ∀ t ∈ (hybridLoop src l).2.1, MIN_CHAR_COUNT ≤ t.length := by
  induction l with
  | nil =>
    intro t ht
    simp [hybridLoop] at ht
  | cons c rest ih =>
    intro t ht
    simp only [hybridLoop] at ht
    split at ht
    · exact ih t ht
    · rename_i hge
      rcases List.mem_cons.mp ht with rfl | ht'
      · have h1 : ¬ (PyText.pyStrip c.page_content).length < MIN_CHAR_COUNT := hge
        have h2 : (PyText.pyStrip c.page_content).length ≤ c.page_content.length :=
          PyText.length_pyStrip_le _
        have h3 : (chunkTitle c.metadata ++ "\n" ++ c.page_content).length
            = (chunkTitle c.metadata).length + 1 + c.page_content.length := by
          rw [String.length_append, String.length_append]
          rfl
        rw [h3]
        omega
      · exact ih t ht'

theorem collectFile_floor (tok : String → Nat) (hs : String → List MdChunk)
    (rs : String → List String) (fn c : String) :
    ∀ t ∈ (collectFile tok hs rs fn c).2.1, MIN_CHAR_COUNT ≤ t.length := by
  intro t ht
  unfold collectFile at ht
  split at ht
  · simp at ht
  · rename_i hlong
    split at ht
    · exact hybridLoop_floor _ _ t ht
    · rcases List.mem_singleton.mp ht with rfl
      omega

end GenericChunkEmbed

/-- C6 counterexample: a source file whose raw text is exactly 20
characters (the three letters abc followed by 17 spaces) passes the
whole-file character gate, is stored as a single chunk, and its stripped
text has length 3, strictly below the 20-character floor — so a chunk
whose stripped text is shorter than the floor does appear in the
storage-text array. -/
theorem c6_counterexample :
    ∃ t ∈ (GenericChunkEmbed.collectAll (fun s => s.length) (fun _ => []) (fun _ => [])
        [("f.md", "abc                 ")]).2.1,
      (PyText.pyStrip t).length < GenericChunkEmbed.MIN_CHAR_COUNT := by
  decide

/-- C6 amended: every text in the storage array has raw (unstripped)
length at least the 20-character floor — hybrid chunks are gated on
their stripped content and whole files on their raw length — but the
floor on the stripped length can be violated by whole-file chunks, as
the counterexample shows. -/
theorem c6_amended_floor (tok : String → Nat)
    (hs : String → List GenericChunkEmbed.MdChunk) (rs : String → List String)
    (files : List (String × String)) :
    ∀ t ∈ (GenericChunkEmbed.collectAll tok hs rs files).2.1,
      GenericChunkEmbed.MIN_CHAR_COUNT ≤ t.length := by
  induction files with
  | nil =>
    intro t ht
    simp [GenericChunkEmbed.collectAll] at ht
  | cons f rest ih =>
    obtain ⟨fn, c⟩ := f
    intro t ht
    simp only [GenericChunkEmbed.collectAll] at ht
    rcases List.mem_append.mp ht with h | h
    · exact GenericChunkEmbed.collectFile_floor tok hs rs fn c t h
    · exact ih t h

/-- Witness for C6 amended on a concrete one-file corpus. -/
theorem c6_amended_floor_witness :
    GenericChunkEmbed.MIN_CHAR_COUNT
      ≤ ("Contactez le bureau A pour informations." : String).length :=
  c6_amended_floor (fun s => s.length) (fun _ => []) (fun _ => [])
    [("doc_b.md", "Contactez le bureau A pour informations.")]
    "Contactez le bureau A pour informations." (by decide)

/-- C4: a successful build produces equal-length parallel collections
whose dense ids are exactly `0..N-1` in chunk insertion order; the
storage texts and metadata are the collected parallel arrays, and the
vector at each id is the embedding of the normalization of the storage
text at that id (the same chunk); and if any text of any embedding batch
fails to embed, the whole build aborts with no index. -/
theorem c4_index_alignment (tok : String → Nat)
    (hs : String → List GenericChunkEmbed.MdChunk) (rs : String → List String)
    (embedF : String → Option (List Int)) (files : List (String × String)) :
    (∀ st, GenericChunkEmbed.create_vector_store tok hs rs embedF files = some st →
      st.vectors.length = st.texts.length ∧
      st.texts.length = st.metadata.length ∧
      st.ids = List.range st.vectors.length ∧
      st.texts = (GenericChunkEmbed.collectAll tok hs rs files).2.1 ∧
      st.metadata = (GenericChunkEmbed.collectAll tok hs rs files).2.2 ∧
      (∀ i, i < st.vectors.length →
        embedF (GenericChunkEmbed.normalize_text (st.texts.getD i ""))
          = some (st.vectors.getD i []))) ∧
    (∀ t ∈ (GenericChunkEmbed.collectAll tok hs rs files).1, embedF t = none →
      GenericChunkEmbed.create_vector_store tok hs rs embedF files = none) := by
  have hlen := GenericChunkEmbed.collectAll_lengths tok hs rs files
  have hmap := GenericChunkEmbed.collectAll_embed_eq_map tok hs rs files
  constructor
  · intro st hst
    unfold GenericChunkEmbed.create_vector_store at hst
    by_cases hemp : (GenericChunkEmbed.collectAll tok hs rs files).1 = []
    · rw [if_pos hemp] at hst
      cases hst
    · rw [if_neg hemp] at hst
      cases hb : GenericChunkEmbed.embedBatches embedF
          (GenericChunkEmbed.collectAll tok hs rs files).1.length
          (GenericChunkEmbed.collectAll tok hs rs files).1 with
      | none => rw [hb] at hst; cases hst
      | some vecs =>
        rw [hb] at hst
        rw [GenericChunkEmbed.embedBatches_eq_mapMO embedF _ _ (Nat.le_refl _)] at hb
        have hvlen := GenericChunkEmbed.mapMO_length embedF _ vecs hb
        cases hst
        refine ⟨?_, ?_, ?_, rfl, rfl, ?_⟩
        · simp only [hvlen, hlen.1]
        · exact hlen.2
        · simp only [hvlen]
        · intro i hi
          rw [hvlen] at hi
          have hpt := GenericChunkEmbed.mapMO_getD embedF _ vecs hb i hi
          have hget := GenericChunkEmbed.getD_map_normalize
            (GenericChunkEmbed.collectAll tok hs rs files).2.1 i (by
              rw [← hlen.1]
              exact hi)
          rw [hmap, hget] at hpt
          exact hpt
  · intro t ht hft
    have hnone := GenericChunkEmbed.mapMO_none_of_mem embedF _ t ht hft
    unfold GenericChunkEmbed.create_vector_store
    by_cases hemp : (GenericChunkEmbed.collectAll tok hs rs files).1 = []
    · rw [if_pos hemp]
    · rw [if_neg hemp]
      rw [GenericChunkEmbed.embedBatches_eq_mapMO embedF _ _ (Nat.le_refl _), hnone]

/-- Witness for C4: a one-file corpus built with a constant embedder
satisfies the alignment conclusions, and the same corpus with a failing
embedder produces no index. -/
theorem c4_index_alignment_witness :
    (GenericChunkEmbed.create_vector_store (fun s => s.length) (fun _ => []) (fun _ => [])
        (fun _ => some [1, 2]) [("doc_a.md", "Contactez le bureau A pour informations.")]
      = some ⟨[[1, 2]], [0], ["Contactez le bureau A pour informations."],
          [[("source", "doc/a")]]⟩ ∧
      ((⟨[[1, 2]], [0], ["Contactez le bureau A pour informations."],
          [[("source", "doc/a")]]⟩ : GenericChunkEmbed.BuiltStore).vectors.length
        = (⟨[[1, 2]], [0], ["Contactez le bureau A pour informations."],
          [[("source", "doc/a")]]⟩ : GenericChunkEmbed.BuiltStore).texts.length) ∧
      ((⟨[[1, 2]], [0], ["Contactez le bureau A pour informations."],
          [[("source", "doc/a")]]⟩ : GenericChunkEmbed.BuiltStore).ids
        = List.range 1) ∧
      (∀ i, i < 1 →
        (fun (_ : String) => some ([1, 2] : List Int))
          (GenericChunkEmbed.normalize_text
            ((⟨[[1, 2]], [0], ["Contactez le bureau A pour informations."],
              [[("source", "doc/a")]]⟩ : GenericChunkEmbed.BuiltStore).texts.getD i ""))
          = some ((⟨[[1, 2]], [0], ["Contactez le bureau A pour informations."],
              [[("source", "doc/a")]]⟩ : GenericChunkEmbed.BuiltStore).vectors.getD i []))) ∧
    GenericChunkEmbed.create_vector_store (fun s => s.length) (fun _ => []) (fun _ => [])
        (fun _ => none) [("doc_a.md", "Contactez le bureau A pour informations.")]
      = none := by
  have hmain := c4_index_alignment (fun s => s.length) (fun _ => []) (fun _ => [])
    (fun _ => some [1, 2]) [("doc_a.md", "Contactez le bureau A pour informations.")]
  have hrun : GenericChunkEmbed.create_vector_store (fun s => s.length) (fun _ => [])
      (fun _ => []) (fun _ => some [1, 2])
      [("doc_a.md", "Contactez le bureau A pour informations.")]
      = some ⟨[[1, 2]], [0], ["Contactez le bureau A pour informations."],
          [[("source", "doc/a")]]⟩ := by decide
  have hinst := hmain.1 _ hrun
  refine ⟨⟨hrun, hinst.1, ?_, ?_⟩, ?_⟩
  · rw [hinst.2.2.1]
    rfl
  · intro i hi
    exact hinst.2.2.2.2.2 i hi
  · exact (c4_index_alignment (fun s => s.length) (fun _ => []) (fun _ => [])
      (fun _ => none) [("doc_a.md", "Contactez le bureau A pour informations.")]).2
      (GenericChunkEmbed.normalize_text "Contactez le bureau A pour informations.")
      (by decide) rfl

namespace Scraping

/-- One row of the `metadata.json` ledger. `add_metadata_entry` writes
exactly the first four keys plus a timestamp (not modeled); the `status`
and `markdown_file` keys are never written by any writer in the
pipeline, so `dict.get` on them yields `None`, modeled as fields
defaulting to `none`. -/
structure MetaEntry where
  original_name : String
  url : Option String
  content_hash : Option String
  duplicate_of : Option String
  status : Option String := none
  markdown_file : Option String := none
deriving DecidableEq

/-- The persistent store of the scraping pipeline: the raw HTML artifacts
and their `.hash` sidecars keyed by URL hash, the downloaded documents
keyed by URL hash plus extension (the on-disk name `hash.ext`, split so
that the `hash.*` glob of `delete_old_file` is key-equality on the first
component), their sidecars, and the metadata ledger. SHA-256 hashes are
modeled by the hashed value itself (collision-freeness makes the digest
an injective content identifier, and byte-identical content is exactly
equal content). -/
structure ScrapeState where
  htmlFiles : List (String × String)
  htmlHashes : List (String × String)
  docFiles : List ((String × String) × String)
  docHashes : List (String × String)
  metadata : List (String × MetaEntry)
deriving DecidableEq

/-- `hash_url`, modeled as the identity on URLs (injectivity of SHA-256
under collision-freeness). -/
def hash_url (url : String) : String := url

/-- `hash_content` over decoded text or bytes, modeled as the identity. -/
def hash_content (content : String) : String := content

/-- Dict upsert: update the value in place when the key is present
(Python dicts keep the insertion position), append otherwise. -/
def setA {κ α : Type} [BEq κ] (k : κ) (v : α) (l : List (κ × α)) : List (κ × α) :=
  if (l.lookup k).isSome then
    l.map (fun p => if p.1 == k then (k, v) else p)
  else l ++ [(k, v)]

/-- `get_all_content_hashes`: every recorded content hash, from both the
HTML and the document sidecar stores. -/
def all_content_hashes (st : ScrapeState) : List String :=
  st.htmlHashes.map (fun p => p.2) ++ st.docHashes.map (fun p => p.2)

/-- The last slash-separated segment of a URL, modeling
`urlparse(url).path.split('/')[-1]` for the plain URLs considered. -/
def lastSlashSeg (url : String) : String :=
  String.mk ((url.data.splitOn '/').getLastD [])

/-- The `original_name` recorded for an HTML page (last path segment, or
`index.html` when empty). -/
def origName (url : String) : String :=
  let seg := lastSlashSeg url
  if seg.data.isEmpty then "index.html" else seg

/-- The `original_name` recorded for a document (last path segment, or a
generic `document` name with the extension when empty or without a dot). -/
def docOrigName (url ext : String) : String :=
  let seg := lastSlashSeg url
  if seg.data.isEmpty || !(seg.data.contains '.') then "document" ++ ext else seg

/-- `delete_old_file` for the HTML kind: remove the artifact and its
sidecar for this URL hash. -/
def delete_old_file_html (hname : String) (st : ScrapeState) : ScrapeState :=
  { st with
    htmlFiles := st.htmlFiles.filter (fun p => !(p.1 == hname)),
    htmlHashes := st.htmlHashes.filter (fun p => !(p.1 == hname)) }

/-- `delete_old_file` for the document kind: remove all files matching
the `hash.*` glob and the sidecar. -/
def delete_old_file_doc (hname : String) (st : ScrapeState) : ScrapeState :=
  { st with
    docFiles := st.docFiles.filter (fun p => !(p.1.1 == hname)),
    docHashes := st.docHashes.filter (fun p => !(p.1 == hname)) }

/-- `add_metadata_entry`: upsert a fresh ledger row (only the four keys
shown are ever written; `duplicate_of` is `None` at every call site). -/
def add_metadata_entry (hash_name original_name : String) (url content_hash
    duplicate_of : Option String) (st : ScrapeState) : ScrapeState :=
  { st with
    metadata := setA hash_name
      { original_name := original_name, url := url, content_hash := content_hash,
        duplicate_of := duplicate_of } st.metadata }

/-- The write phase of `scrape_page` (lines 422-434): persist the page,
its content hash and a ledger row with `duplicate_of = None`. -/
def writeHtml (url hname content chash : String) (st : ScrapeState) : ScrapeState :=
  let st1 := { st with htmlFiles := setA hname content st.htmlFiles }
  let st2 := { st1 with htmlHashes := setA hname chash st1.htmlHashes }
  add_metadata_entry hname (origName url) (some url) (some chash) none st2

/-- The HTML branch of `scrape_page` (lines 404-434), given the fetched
page text: skip entirely when the content hash is already known under any
identifier (global dedup, no write and no ledger entry); otherwise
compare with this URL hash record — unchanged content is skipped,
changed content has the old artifact and sidecar deleted before the new
ones are written. Link extraction does not touch the store. -/
def scrape_page (url content : String) (st : ScrapeState) : ScrapeState :=
  let chash := hash_content content
  let hname := hash_url url
  if chash ∈ all_content_hashes st then st
  else
    match st.htmlHashes.lookup hname with
    | some old =>
      if old = chash then st
      else writeHtml url hname content chash (delete_old_file_html hname st)
    | none => writeHtml url hname content chash st

/-- The write phase of `download_document` (lines 527-542). -/
def writeDoc (url hname ext content chash : String) (st : ScrapeState) : ScrapeState :=
  let st1 := { st with docFiles := setA (hname, ext) content st.docFiles }
  let st2 := { st1 with docHashes := setA hname chash st1.docHashes }
  add_metadata_entry hname (docOrigName url ext) (some url) (some chash) none st2

/-- `download_document` (lines 458-544), given the downloaded bytes and
the extension determined from the URL or the Content-Type header (an
input here, as it depends on the HTTP response): the same two-tier dedup
policy as `scrape_page`, over the document stores. -/
def download_document (url content ext : String) (st : ScrapeState) : ScrapeState :=
  let hname := hash_url url
  let chash := hash_content content
  if chash ∈ all_content_hashes st then st
  else
    match st.docHashes.lookup hname with
    | some old =>
      if old = chash then st
      else writeDoc url hname ext content chash (delete_old_file_doc hname st)
    | none => writeDoc url hname ext content chash st

/-- Group a converted file into the hash-keyed groups, keeping first-seen
group order and insertion order inside a group (Python dict plus append). -/
def groupAdd (h f : String) (groups : List (String × List String)) :
    List (String × List String) :=
  match groups.lookup h with
  | some fs => setA h (fs ++ [f]) groups
  | none => groups ++ [(h, [f])]

/-- The `content_hashes` grouping loop of `deduplicate_markdown_files`. -/
def contentGroups (mdFiles : List (String × String)) : List (String × List String) :=
  mdFiles.foldl (fun gs p => groupAdd (hash_content p.2) p.1 gs) []

/-- Insertion step of `sorted(files, key=lambda f: f.name)`. -/
def insertName (x : String) : List String → List String
  | [] => [x]
  | y :: ys => if PyText.lexLe x.data y.data then x :: y :: ys else y :: insertName x ys

/-- Sort file names ascending. -/
def sortNames : List String → List String
  | [] => []
  | x :: xs => insertName x (sortNames xs)

/-- The ledger-update loop of `deduplicate_markdown_files` (lines
946-951): mark the first entry whose `markdown_file` value equals the
removed file name, then stop. -/
def updateFirstMatch (removeName kept : String) :
    List (String × MetaEntry) → List (String × MetaEntry)
  | [] => []
  | (k, e) :: rest =>
    if e.markdown_file == some removeName then
      (k, { e with status := some "duplicate_removed",
                   duplicate_of := some kept }) :: rest
    else (k, e) :: updateFirstMatch removeName kept rest

/-- The outcome of the dedup-cleanup pass: removed file names, remaining
converted files, and the updated ledger. -/
structure DedupResult where
  removed : List String
  mdFiles : List (String × String)
  metadata : List (String × MetaEntry)
deriving DecidableEq

/-- Remove one duplicate: record it, update the ledger, delete the file. -/
def removeOne (kept : String) (res : DedupResult) (name : String) : DedupResult :=
  { removed := res.removed ++ [name],
    mdFiles := res.mdFiles.filter (fun p => !(p.1 == name)),
    metadata := updateFirstMatch name kept res.metadata }

/-- Process one duplicate group: keep the lexicographically first name,
remove the rest in order. -/
def processGroup (res : DedupResult) (g : String × List String) : DedupResult :=
  match sortNames g.2 with
  | [] => res
  | kept :: removes => removes.foldl (removeOne kept) res

/-- `deduplicate_markdown_files` with `dry_run=False`: group by content
hash, and for every group with more than one file keep the first name in
sort order and remove the others, updating the ledger for each removal. -/
def deduplicate_markdown_files (mdFiles : List (String × String))
    (metadata : List (String × MetaEntry)) : DedupResult :=
  let groups := (contentGroups mdFiles).filter (fun g => g.2.length > 1)
  groups.foldl processGroup { removed := [], mdFiles := mdFiles, metadata := metadata }

end Scraping

namespace Scraping

/-- `SCRAPING_CONFIG` worker-pool size. -/
def NUM_WORKERS : Nat := 8

/-- The crawl loop state: the FIFO frontier, the visited set, the urls
currently submitted to workers, and the stats counters. A URL is
dispatched to a worker exactly when `total_pages` is incremented. -/
structure CrawlState where
  queue : List String
  visited : List String
  futures : List String
  total_pages : Nat
  pages_scraped : Nat
  errs : Nat
deriving DecidableEq

/-- The inner dispatch loop of `crawl_website` (lines 587-602): while the
frontier is non-empty, fewer than `NUM_WORKERS` futures are pending and
fewer than `maxPages` pages have been dispatched, pop a URL; an already
visited URL is dropped, otherwise it is marked visited, counted and
submitted. Fuel equal to the frontier length suffices, as every round
pops one URL. -/
def dispatchLoop (maxPages : Nat) : Nat → CrawlState → CrawlState
  | 0, st => st
  | fuel + 1, st =>
    match st.queue with
    | [] => st
    | url :: rest =>
      if st.futures.length < NUM_WORKERS ∧ st.total_pages < maxPages then
        if url ∈ st.visited then
          dispatchLoop maxPages fuel { st with queue := rest }
        else
          dispatchLoop maxPages fuel
            { st with
              queue := rest,
              visited := st.visited ++ [url],
              total_pages := st.total_pages + 1,
              futures := st.futures ++ [url] }
      else st

/-- Enqueue the links found on a page, skipping those already visited or
already queued (lines 617-620). -/
def enqueueLinks (links : List String) (st : CrawlState) : CrawlState :=
  links.foldl
    (fun s l =>
      if s.visited.contains l || s.queue.contains l then s
      else { s with queue := s.queue ++ [l] }) st

/-- The future-polling block (lines 604-632): every pending future whose
worker has finished (`done`, the completion schedule for this round) is
popped and processed — a successful fetch counts as scraped and its
links are enqueued, a failed one counts as an error. Unfinished futures
stay pending. -/
def processFutures (fetchOk : String → Bool) (pageLinks : String → List String)
    (done : List String) (st : CrawlState) : CrawlState :=
  let part := st.futures.partition (fun f => done.contains f)
  part.1.foldl
    (fun s f =>
      if fetchOk f then
        enqueueLinks (pageLinks f) { s with pages_scraped := s.pages_scraped + 1 }
      else { s with errs := s.errs + 1 })
    { st with futures := part.2 }

/-- One iteration of the outer crawl loop: dispatch, then poll futures
when any are pending. -/
def crawlStep (fetchOk : String → Bool) (pageLinks : String → List String)
    (maxPages : Nat) (done : List String) (st : CrawlState) : CrawlState :=
  let st1 := dispatchLoop maxPages st.queue.length st
  if st1.futures.isEmpty then st1 else processFutures fetchOk pageLinks done st1

/-- The outer loop of `crawl_website` (lines 585-635): loop while the
frontier or the pending futures are non-empty, breaking as soon as
`total_pages` reaches `maxPages` — even with futures still pending,
whose results are then discarded. `schedule t` is the set of URLs whose
workers completed by round `t` (worker timing is environmental); `fuel`
bounds the rounds, with the state returned as is when it runs out. -/
def crawlLoop (fetchOk : String → Bool) (pageLinks : String → List String)
    (maxPages : Nat) (schedule : Nat → List String) :
    Nat → Nat → CrawlState → CrawlState
  | 0, _, st => st
  | fuel + 1, t, st =>
    if st.queue.isEmpty && st.futures.isEmpty then st
    else
      let st2 := crawlStep fetchOk pageLinks maxPages (schedule t) st
      if maxPages ≤ st2.total_pages then st2
      else crawlLoop fetchOk pageLinks maxPages schedule fuel (t + 1) st2

/-- `crawl_website`: run the crawl from the seed frontier with empty
visited set and zeroed stats. -/
def crawl_website (fetchOk : String → Bool) (pageLinks : String → List String)
    (start_urls : List String) (maxPages : Nat) (schedule : Nat → List String)
    (fuel : Nat) : CrawlState :=
  crawlLoop fetchOk pageLinks maxPages schedule fuel 0
    { queue := start_urls, visited := [], futures := [],
      total_pages := 0, pages_scraped := 0, errs := 0 }

end Scraping

/-- C2: two different URLs serving byte-identical content do result in
exactly one stored artifact, but the second URL is skipped without any
ledger entry at all — its URL hash is absent from the metadata and no
entry anywhere carries a `duplicate_of` value; and the dedup-cleanup
pass over two byte-identical converted files removes one file while
updating no ledger entry (its matching condition reads a `markdown_file`
ledger key that no writer ever sets), so no removed duplicate is ever
recorded with `duplicate_of` pointing to the kept file. -/
theorem c2_duplicate_of_never_recorded :
    (let c := "Page de contenu identique pour test."
    let st1 := Scraping.scrape_page "https://site.example/a" c ⟨[], [], [], [], []⟩
    Scraping.scrape_page "https://site.example/b" c st1 = st1 ∧
    st1.htmlFiles.length = 1 ∧
    st1.metadata.lookup (Scraping.hash_url "https://site.example/b") = none ∧
    (∀ p ∈ st1.metadata, p.2.duplicate_of = none) ∧
    (Scraping.deduplicate_markdown_files
      [("a.md", "# Même contenu"), ("b.md", "# Même contenu")] st1.metadata).removed
      = ["b.md"] ∧
    (Scraping.deduplicate_markdown_files
      [("a.md", "# Même contenu"), ("b.md", "# Même contenu")] st1.metadata).metadata
      = st1.metadata ∧
    (∀ p ∈ (Scraping.deduplicate_markdown_files
      [("a.md", "# Même contenu"), ("b.md", "# Même contenu")] st1.metadata).metadata,
      p.2.duplicate_of = none)) := by
  decide

/-- C8 counterexample: with page A stored with content X and page B
stored with content Y, re-fetching A with new content Y leaves the store
completely unchanged — A's recorded hash still differs from the hash of
the newly fetched content, yet neither A's artifact nor its sidecar is
deleted or replaced, because the global content-hash check (the hash of
Y is already recorded under B) preempts the per-URL update path. -/
theorem c8_counterexample :
    let stA := Scraping.scrape_page "https://site.example/a"
      "Contenu initial de la page A." ⟨[], [], [], [], []⟩
    let st0 := Scraping.scrape_page "https://site.example/b"
      "Contenu nouveau de la page B." stA
    Scraping.scrape_page "https://site.example/a" "Contenu nouveau de la page B." st0
      = st0 ∧
    st0.htmlHashes.lookup (Scraping.hash_url "https://site.example/a")
      = some (Scraping.hash_content "Contenu initial de la page A.") ∧
    Scraping.hash_content "Contenu nouveau de la page B."
      ≠ Scraping.hash_content "Contenu initial de la page A." ∧
    st0.htmlFiles.lookup (Scraping.hash_url "https://site.example/a")
      = some "Contenu initial de la page A." := by
  decide

namespace Scraping

theorem lookup_mem_values {κ α : Type} [BEq κ] [LawfulBEq κ] (k : κ) :
    ∀ (l : List (κ × α)) (v : α), l.lookup k = some v → v ∈ l.map (fun p => p.2) := by
  intro l
  induction l with
  | nil => intro v h; cases h
  | cons p rest ih =>
    intro v h
    obtain ⟨a, b⟩ := p
    cases hk : (k == a) with
    | false =>
      simp only [List.lookup, hk] at h
      simp only [List.map_cons]
      exact List.mem_cons_of_mem _ (ih v h)
    | true =>
      simp only [List.lookup, hk] at h
      cases h
      simp only [List.map_cons]
      exact List.mem_cons_self _ _

theorem lookup_map_update {κ α : Type} [BEq κ] [LawfulBEq κ] (k : κ) (v : α) :
    ∀ (l : List (κ × α)), (l.lookup k).isSome = true →
      (l.map (fun p => if p.1 == k then (k, v) else p)).lookup k = some v := by
  intro l
  induction l with
  | nil => intro h; simp [List.lookup] at h
  | cons p rest ih =>
    intro h
    obtain ⟨a, b⟩ := p
    by_cases hk : a = k
    · subst hk
      simp only [List.map_cons, if_pos (beq_self_eq_true a)]
      simp [List.lookup]
    · have hk1 : (a == k) = false := beq_eq_false_iff_ne.mpr hk
      have hk2 : (k == a) = false := beq_eq_false_iff_ne.mpr (fun hcon => hk hcon.symm)
      simp only [List.map_cons, hk1, if_neg Bool.false_ne_true]
      simp only [List.lookup, hk2] at h ⊢
      exact ih h

theorem lookup_append_single {κ α : Type} [BEq κ] [LawfulBEq κ] (k : κ) (v : α) :
    ∀ (l : List (κ × α)), l.lookup k = none → (l ++ [(k, v)]).lookup k = some v := by
  intro l
  induction l with
  | nil =>
    intro _
    simp [List.lookup]
  | cons p rest ih =>
    intro h
    obtain ⟨a, b⟩ := p
    cases hk : (k == a) with
    | true =>
      simp only [List.lookup, hk] at h
      cases h
    | false =>
      simp only [List.lookup, hk] at h
      simp only [List.cons_append, List.lookup, hk]
      exact ih h

theorem lookup_setA_self {κ α : Type} [BEq κ] [LawfulBEq κ] (k : κ) (v : α)
    (l : List (κ × α)) : (setA k v l).lookup k = some v := by
  unfold setA
  split
  · rename_i h
    exact lookup_map_update k v l h
  · rename_i h
    exact lookup_append_single k v l (Option.not_isSome_iff_eq_none.mp (by simpa using h))

theorem setA_eq_append_of_none {κ α : Type} [BEq κ] (k : κ) (v : α) (l : List (κ × α))
    (h : l.lookup k = none) : setA k v l = l ++ [(k, v)] := by
  unfold setA
  rw [h]
  rfl

theorem lookup_none_of_forall {κ α : Type} [BEq κ] [LawfulBEq κ] (k : κ) :
    ∀ (l : List (κ × α)), (∀ p ∈ l, p.1 ≠ k) → l.lookup k = none := by
  intro l
  induction l with
  | nil => intro _; rfl
  | cons p rest ih =>
    intro h
    obtain ⟨a, b⟩ := p
    have ha : a ≠ k := h (a, b) (List.mem_cons_self _ _)
    have hk : (k == a) = false := beq_eq_false_iff_ne.mpr (fun hcon => ha hcon.symm)
    simp only [List.lookup, hk]
    exact ih (fun p hp => h p (List.mem_cons_of_mem _ hp))

end Scraping

/-- C8 amended: on re-fetching a previously fetched URL, if the new
content hash equals the recorded per-URL hash, nothing changes; if it
differs AND is not already recorded under any other identifier (the
global dedup check, which otherwise skips the fetch entirely and leaves
the old artifact in place), the artifact and sidecar for this URL are
replaced by the new content and hash — on both the HTML path and the
document path, where additionally only the new `hash.ext` file remains
among the files of this URL hash. -/
theorem c8_amended_refetch (st : Scraping.ScrapeState) (url newC ext : String) :
    (st.htmlHashes.lookup (Scraping.hash_url url) = some (Scraping.hash_content newC) →
      Scraping.scrape_page url newC st = st) ∧
    (∀ old, st.htmlHashes.lookup (Scraping.hash_url url) = some old →
      old ≠ Scraping.hash_content newC →
      Scraping.hash_content newC ∉ Scraping.all_content_hashes st →
      (Scraping.scrape_page url newC st).htmlFiles.lookup (Scraping.hash_url url)
          = some newC ∧
      (Scraping.scrape_page url newC st).htmlHashes.lookup (Scraping.hash_url url)
          = some (Scraping.hash_content newC)) ∧
    (st.docHashes.lookup (Scraping.hash_url url) = some (Scraping.hash_content newC) →
      Scraping.download_document url newC ext st = st) ∧
    (∀ old, st.docHashes.lookup (Scraping.hash_url url) = some old →
      old ≠ Scraping.hash_content newC →
      Scraping.hash_content newC ∉ Scraping.all_content_hashes st →
      (Scraping.download_document url newC ext st).docHashes.lookup
          (Scraping.hash_url url) = some (Scraping.hash_content newC) ∧
      (Scraping.download_document url newC ext st).docFiles.lookup
          (Scraping.hash_url url, ext) = some newC ∧
      (∀ p ∈ (Scraping.download_document url newC ext st).docFiles,
        p.1.1 = Scraping.hash_url url → p.1.2 = ext ∧ p.2 = newC)) := by
  refine ⟨?_, ?_, ?_, ?_⟩
  · intro hl
    have hmem : Scraping.hash_content newC ∈ Scraping.all_content_hashes st :=
      List.mem_append_left _ (Scraping.lookup_mem_values _ _ _ hl)
    simp only [Scraping.scrape_page]
    rw [if_pos hmem]
  · intro old hl hne hglobal
    have hred : Scraping.scrape_page url newC st
        = Scraping.writeHtml url (Scraping.hash_url url) newC (Scraping.hash_content newC)
            (Scraping.delete_old_file_html (Scraping.hash_url url) st) := by
      simp only [Scraping.scrape_page, hl]
      rw [if_neg hglobal, if_neg hne]
    rw [hred]
    constructor
    · exact Scraping.lookup_setA_self _ _ _
    · exact Scraping.lookup_setA_self _ _ _
  · intro hl
    have hmem : Scraping.hash_content newC ∈ Scraping.all_content_hashes st :=
      List.mem_append_right _ (Scraping.lookup_mem_values _ _ _ hl)
    simp only [Scraping.download_document]
    rw [if_pos hmem]
  · intro old hl hne hglobal
    have hred : Scraping.download_document url newC ext st
        = Scraping.writeDoc url (Scraping.hash_url url) ext newC (Scraping.hash_content newC)
            (Scraping.delete_old_file_doc (Scraping.hash_url url) st) := by
      simp only [Scraping.download_document, hl]
      rw [if_neg hglobal, if_neg hne]
    rw [hred]
    have hfilter : ∀ p ∈ (Scraping.delete_old_file_doc
        (Scraping.hash_url url) st).docFiles, p.1.1 ≠ Scraping.hash_url url := by
      intro p hp
      have h2 := (List.mem_filter.mp hp).2
      intro hcon
      rw [hcon] at h2
      simp at h2
    have hnone : (Scraping.delete_old_file_doc
        (Scraping.hash_url url) st).docFiles.lookup (Scraping.hash_url url, ext) = none := by
      apply Scraping.lookup_none_of_forall
      intro p hp hcon
      exact hfilter p hp (by rw [hcon])
    refine ⟨Scraping.lookup_setA_self _ _ _, Scraping.lookup_setA_self _ _ _, ?_⟩
    intro p hp hfst
    have hfiles : (Scraping.writeDoc url (Scraping.hash_url url) ext newC
        (Scraping.hash_content newC)
        (Scraping.delete_old_file_doc (Scraping.hash_url url) st)).docFiles
        = (Scraping.delete_old_file_doc (Scraping.hash_url url) st).docFiles
          ++ [((Scraping.hash_url url, ext), newC)] := by
      simp only [Scraping.writeDoc, Scraping.add_metadata_entry]
      exact Scraping.setA_eq_append_of_none _ _ _ hnone
    rw [hfiles] at hp
    rcases List.mem_append.mp hp with hpf | hps
    · exact absurd hfst (hfilter p hpf)
    · rcases List.mem_singleton.mp hps with rfl
      exact ⟨rfl, rfl⟩

/-- Witness for C8 amended, on a store holding one page and one document:
re-fetching with identical content changes nothing, and re-fetching with
fresh changed content replaces the artifact and sidecar, on both paths. -/
theorem c8_amended_refetch_witness :
    let base := Scraping.download_document "https://site.example/files/doc.pdf"
      "PDFBYTES-ORIGINAUX" ".pdf"
      (Scraping.scrape_page "https://site.example/a" "Contenu initial de la page A."
        ⟨[], [], [], [], []⟩)
    (Scraping.scrape_page "https://site.example/a" "Contenu initial de la page A." base
      = base) ∧
    ((Scraping.scrape_page "https://site.example/a" "Nouveau contenu de la page A."
        base).htmlFiles.lookup (Scraping.hash_url "https://site.example/a")
      = some "Nouveau contenu de la page A." ∧
     (Scraping.scrape_page "https://site.example/a" "Nouveau contenu de la page A."
        base).htmlHashes.lookup (Scraping.hash_url "https://site.example/a")
      = some (Scraping.hash_content "Nouveau contenu de la page A.")) ∧
    (Scraping.download_document "https://site.example/files/doc.pdf"
      "PDFBYTES-ORIGINAUX" ".pdf" base = base) ∧
    ((Scraping.download_document "https://site.example/files/doc.pdf"
        "PDFBYTES-NOUVEAUX" ".pdf" base).docHashes.lookup
          (Scraping.hash_url "https://site.example/files/doc.pdf")
      = some (Scraping.hash_content "PDFBYTES-NOUVEAUX") ∧
     (Scraping.download_document "https://site.example/files/doc.pdf"
        "PDFBYTES-NOUVEAUX" ".pdf" base).docFiles.lookup
          (Scraping.hash_url "https://site.example/files/doc.pdf", ".pdf")
      = some "PDFBYTES-NOUVEAUX") := by
  refine ⟨?_, ⟨?_, ?_⟩, ?_, ⟨?_, ?_⟩⟩
  · exact (c8_amended_refetch _ "https://site.example/a"
      "Contenu initial de la page A." ".pdf").1 (by decide)
  · exact ((c8_amended_refetch _ "https://site.example/a"
      "Nouveau contenu de la page A." ".pdf").2.1
      (Scraping.hash_content "Contenu initial de la page A.")
      (by decide) (by decide) (by decide)).1
  · exact ((c8_amended_refetch _ "https://site.example/a"
      "Nouveau contenu de la page A." ".pdf").2.1
      (Scraping.hash_content "Contenu initial de la page A.")
      (by decide) (by decide) (by decide)).2
  · exact (c8_amended_refetch _ "https://site.example/files/doc.pdf"
      "PDFBYTES-ORIGINAUX" ".pdf").2.2.1 (by decide)
  · exact ((c8_amended_refetch _ "https://site.example/files/doc.pdf"
      "PDFBYTES-NOUVEAUX" ".pdf").2.2.2
      (Scraping.hash_content "PDFBYTES-ORIGINAUX")
      (by decide) (by decide) (by decide)).1
  · exact ((c8_amended_refetch _ "https://site.example/files/doc.pdf"
      "PDFBYTES-NOUVEAUX" ".pdf").2.2.2
      (Scraping.hash_content "PDFBYTES-ORIGINAUX")
      (by decide) (by decide) (by decide)).2.1

namespace Scraping

theorem enqueueLinks_total (links : List String) :
    ∀ s, (enqueueLinks links s).total_pages = s.total_pages := by
  induction links with
  | nil => intro s; rfl
  | cons l ls ih =>
    intro s
    have h1 : enqueueLinks (l :: ls) s = enqueueLinks ls
        (if s.visited.contains l || s.queue.contains l then s
         else { s with queue := s.queue ++ [l] }) := rfl
    rw [h1, ih]
    split <;> rfl

theorem processFold_total (fetchOk : String → Bool) (pageLinks : String → List String) :
    ∀ (l : List String) (s : CrawlState),
      (l.foldl (fun s f =>
        if fetchOk f then
          enqueueLinks (pageLinks f) { s with pages_scraped := s.pages_scraped + 1 }
        else { s with errs := s.errs + 1 }) s).total_pages = s.total_pages := by
  intro l
  induction l with
  | nil => intro s; rfl
  | cons f fs ih =>
    intro s
    rw [List.foldl_cons, ih]
    split
    · rw [enqueueLinks_total]
    · rfl

theorem processFutures_total (fetchOk : String → Bool) (pageLinks : String → List String)
    (done : List String) (st : CrawlState) :
    (processFutures fetchOk pageLinks done st).total_pages = st.total_pages := by
  simp only [processFutures]
  rw [processFold_total]

theorem dispatchLoop_total_le (maxPages : Nat) :
    ∀ (fuel : Nat) (st : CrawlState), st.total_pages ≤ maxPages →
      (dispatchLoop maxPages fuel st).total_pages ≤ maxPages := by
  intro fuel
  induction fuel with
  | zero => intro st h; exact h
  | succ n ih =>
    intro st h
    cases hq : st.queue with
    | nil => simp only [dispatchLoop, hq]; exact h
    | cons url rest =>
      simp only [dispatchLoop, hq]
      split
      · rename_i hcond
        split
        · exact ih _ h
        · exact ih _ hcond.2
      · exact h

theorem crawlStep_total_le (fetchOk : String → Bool) (pageLinks : String → List String)
    (maxPages : Nat) (done : List String) (st : CrawlState)
    (h : st.total_pages ≤ maxPages) :
    (crawlStep fetchOk pageLinks maxPages done st).total_pages ≤ maxPages := by
  simp only [crawlStep]
  split
  · exact dispatchLoop_total_le maxPages _ st h
  · rw [processFutures_total]
    exact dispatchLoop_total_le maxPages _ st h

theorem crawlLoop_total_le (fetchOk : String → Bool) (pageLinks : String → List String)
    (maxPages : Nat) (schedule : Nat → List String) :
    ∀ (fuel t : Nat) (st : CrawlState), st.total_pages ≤ maxPages →
      (crawlLoop fetchOk pageLinks maxPages schedule fuel t st).total_pages ≤ maxPages := by
  intro fuel
  induction fuel with
  | zero => intro t st h; exact h
  | succ n ih =>
    intro t st h
    simp only [crawlLoop]
    split
    · exact h
    · split
      · exact crawlStep_total_le fetchOk pageLinks maxPages _ st h
      · exact ih _ _ (crawlStep_total_le fetchOk pageLinks maxPages _ st h)

end Scraping

/-- C9 counterexample: a crawl with `max_pages = 1` on a seed page with 5
in-scope outgoing links, under the realistic worker timing in which the
page fetch (which sleeps for the politeness delay) has not completed by
the time the crawl loop reaches its max-pages break, visits exactly one
page and returns `total_pages = 1`, but ends with an EMPTY frontier: the
discovered links are discarded with the abandoned future instead of
being left queued-but-unvisited, refuting that part of the claim. -/
theorem c9_counterexample :
    let seed := "https://univ.example/"
    let links := ["https://univ.example/p1", "https://univ.example/p2",
      "https://univ.example/p3", "https://univ.example/p4", "https://univ.example/p5"]
    let pageLinks := fun u => if u = seed then links else ([] : List String)
    let run := Scraping.crawl_website (fun _ => true) pageLinks [seed] 1 (fun _ => []) 5
    run.total_pages = 1 ∧ run.visited = [seed] ∧ run.queue = [] := by
  decide

/-- C9 amended: `crawl_website` never dispatches more than `max_pages`
URLs to workers (`total_pages` counts exactly the dispatches and never
exceeds `max_pages`, for every schedule of worker completions); in the
`max_pages = 1` scenario with 5 in-scope links, exactly one page is
visited and `total_pages = 1`, and the discovered links end up
queued-but-unvisited exactly when the worker completes before the
max-pages break — they are discarded otherwise. -/
theorem c9_amended_crawl :
    (∀ (fetchOk : String → Bool) (pageLinks : String → List String)
      (start_urls : List String) (maxPages : Nat) (schedule : Nat → List String)
      (fuel : Nat),
      (Scraping.crawl_website fetchOk pageLinks start_urls maxPages schedule
        fuel).total_pages ≤ maxPages) ∧
    (let seed := "https://univ.example/"
     let links := ["https://univ.example/p1", "https://univ.example/p2",
       "https://univ.example/p3", "https://univ.example/p4", "https://univ.example/p5"]
     let pageLinks := fun u => if u = seed then links else ([] : List String)
     let eager := Scraping.crawl_website (fun _ => true) pageLinks [seed] 1
       (fun _ => [seed]) 5
     eager.total_pages = 1 ∧ eager.visited = [seed] ∧ eager.queue = links ∧
       eager.pages_scraped = 1) ∧
    (let seed := "https://univ.example/"
     let links := ["https://univ.example/p1", "https://univ.example/p2",
       "https://univ.example/p3", "https://univ.example/p4", "https://univ.example/p5"]
     let pageLinks := fun u => if u = seed then links else ([] : List String)
     let lazy := Scraping.crawl_website (fun _ => true) pageLinks [seed] 1
       (fun _ => []) 5
     lazy.total_pages = 1 ∧ lazy.visited = [seed] ∧ lazy.queue = [] ∧
       lazy.pages_scraped = 0) := by
  refine ⟨?_, by decide, by decide⟩
  intro fetchOk pageLinks start_urls maxPages schedule fuel
  exact Scraping.crawlLoop_total_le fetchOk pageLinks maxPages schedule fuel 0 _
    (Nat.zero_le _)
